import Mathlib

/-!
Verification of the MojoShader SDL_GPU back end (`mojoshader_sdlgpu.c`).

This file gives a shallow embedding, in Lean 4, of the parts of the unit the
specification's claims are about: the precompiled-binary archive (open-addressed
table build in `load_precompiled_blob` and lookup in `fetch_blob_shader`), the
program linker and its cache (`MOJOSHADER_sdlLinkProgram`, `hash_shaders`,
`match_shaders`, `nuke_shaders`, `MOJOSHADER_sdlDeleteShader`,
`MOJOSHADER_sdlDeleteProgram`, `compile_program`, `compile_blob_program`), the
shader tag counter of `MOJOSHADER_sdlCompileShader`, the per-draw uniform
marshalling loop of `update_uniform_buffer`, and the SPIR-V vertex-attribute
patch step inside `compile_program`.

Machine integers are modelled as `Nat` with explicit reductions modulo `2 ^ 16`
(the `uint16_t` tag counter), `2 ^ 32` (`uint32_t` hash arithmetic and SPIR-V
words) and `2 ^ 64` (the `uint64_t` content hash used while probing the
archive) exactly where the C arithmetic wraps.  Heap pointers are modelled by
structure values carrying a numeric identity; pointer equality becomes value
equality on those structures.  Host-API effects (shader-object creation and
release, frees) are recorded in an explicit event trace, and the outcome of
fallible host calls and allocations is supplied by an oracle structure so that
every failure path of the C code is reachable in the model.
-/

namespace MojoShader

/-! ### Generic list-indexing helpers

The C code indexes raw arrays; the embedding uses `List.getD`/`List.set`.
These small lemmas relate the two operations. -/

/-! ### Precompiled binary archive (`load_precompiled_blob` / `fetch_blob_shader`)

`load_precompiled_blob` reads a shader count `N`, then inserts the `N`
serialized `(hash, offset, size)` records into an `N`-slot open-addressed
table: home slot is `hash % N`, and probing starts unconditionally at
`home + 1`, wrapping, taking the first unused slot.  `fetch_blob_shader`
probes `(hash + probes) % N` for `probes = 0 .. N-1` and stops at the first
slot whose stored hash equals the query.  The addition `hash + probes` is
performed in `uint64_t`, so it wraps modulo `2 ^ 64`. -/

def UINT64_MOD : Nat := 18446744073709551616

structure ShaderEntry where
  hash : Nat
  offset : Nat
  size : Nat
deriving DecidableEq

/-- A table slot is `none` while the build's `usedEntries[i] == 0`. -/
abbrev BlobTable := List (Option ShaderEntry)

/-- The probe loop of `load_precompiled_blob`: starting from `idx`, step to
`(idx + 1) % N` up to `fuel` times, returning the first unused slot; if the
fuel (`numShaders` probes in the C code) runs out, the C loop leaves
`hashIndex` at the last probed position and stores there anyway, which this
function reproduces by returning the final index. -/
def findFreeSlot (t : BlobTable) (idx : Nat) : Nat → Nat
  | 0 => idx
  | fuel + 1 =>
    if List.getD t ((idx + 1) % List.length t) none = none
    then (idx + 1) % List.length t
    else findFreeSlot t ((idx + 1) % List.length t) fuel

/-- One iteration of the hash-entry read loop of `load_precompiled_blob`:
compute the home slot `hash % numShaders`, probe from `home + 1` for the
first unused slot, and store the entry there. -/
def insertEntry (t : BlobTable) (e : ShaderEntry) : BlobTable :=
  List.set t (findFreeSlot t (e.hash % List.length t) (List.length t)) (some e)

/-- The table-building part of `load_precompiled_blob`: insert the serialized
entries, in file order, into an initially unused `n`-slot table. -/
def load_precompiled_blob (n : Nat) (entries : List ShaderEntry) : BlobTable :=
  entries.foldl insertEntry (List.replicate n none)

/-- The probe loop of `fetch_blob_shader`.  `searchIndex` is
`(hash + probes) % numShaders` where `hash + probes` is `uint64_t`
arithmetic, hence the inner reduction modulo `2 ^ 64`. -/
def lookupAux (t : BlobTable) (h : Nat) : Nat → Nat → Option (Nat × Nat)
  | _, 0 => none
  | probes, fuel + 1 =>
    match List.getD t ((h + probes) % UINT64_MOD % List.length t) none with
    | some e =>
      if e.hash = h then some (e.offset, e.size)
      else lookupAux t h (probes + 1) fuel
    | none => lookupAux t h (probes + 1) fuel

/-- `fetch_blob_shader`: up to `numShaders` probes from `hash + 0`; `none`
models the "MojoShaderPrecompiled.bin is incomplete!!!" error return. -/
def fetch_blob_shader (t : BlobTable) (h : Nat) : Option (Nat × Nat) :=
  lookupAux t h 0 (List.length t)

/-- Number of still-unused slots of a table (`usedEntries[i] == 0` count). -/
def freeCount (t : BlobTable) : Nat := t.countP (fun o => decide (o = none))

/-! ### Shader tag counter (`shaderTagCounter` / `MOJOSHADER_sdlCompileShader`)

`static uint16_t shaderTagCounter = 1;` and, on each successful compile,
`shader->tag = shaderTagCounter++;`.  The counter is a `uint16_t`, so the
post-increment wraps modulo `2 ^ 16`. -/

def UINT16_MOD : Nat := 65536

/-- Value of `shaderTagCounter` after `k` successful compiles. -/
def shaderTagCounter : Nat → Nat
  | 0 => 1
  | k + 1 => (shaderTagCounter k + 1) % UINT16_MOD

/-- The tag assigned to the `k`-th (0-based) successfully compiled shader:
the counter's value before its post-increment. -/
def tagOfCompile (k : Nat) : Nat := shaderTagCounter k

/-! ### Uniform marshalling (`update_uniform_buffer`)

The packing loop iterates the shader's uniforms in declaration order.  All
data moved is 32-bit granular (float and int registers are copied bytewise;
bool registers are written as `uint32_t` words), so the staging buffer is
modelled as a list of 32-bit words; a word is `Some w` once the loop has
written it and `none` while it still holds whatever was in the freshly
allocated staging memory (the source leaves the three trailing words of each
boolean slot unwritten).  Register files are word lists: `regF`/`regI` hold
four words per register, `regB` one byte-derived word per register. -/

inductive UniformType where
  | uniformFloat
  | uniformInt
  | uniformBool
deriving DecidableEq

structure Uniform where
  type : UniformType
  index : Nat
  array_count : Nat
deriving DecidableEq

/-- `const int32_t size = arrayCount ? arrayCount : 1;` -/
def usize (u : Uniform) : Nat := if u.array_count = 0 then 1 else u.array_count

/-- `memcpy(staging + offset, &regF[4 * index], size * 16)` reads these
`4 * size` consecutive words starting at word `4 * index`. -/
def regWords (reg : List Nat) (index size : Nat) : List Nat :=
  (List.range (4 * size)).map (fun k => List.getD reg (4 * index + k) 0)

/-- Write the words `ws` consecutively starting at word offset `off`
(the `memcpy` of the float/int cases). -/
def writeWords : List (Option Nat) → Nat → List Nat → List (Option Nat)
  | buf, _, [] => buf
  | buf, off, w :: ws => writeWords (List.set buf off (some w)) (off + 1) ws

/-- The boolean case: `for (j = 0; j < size; j++) contentsI[j * 4] =
regB[index + j];` — one word written per 16-byte slot, stepping the
destination by four words and the register index by one. -/
def writeBools (regB : List Nat) : List (Option Nat) → Nat → Nat → Nat →
    List (Option Nat)
  | buf, _, _, 0 => buf
  | buf, off, idx, k + 1 =>
    writeBools regB (List.set buf off (some (List.getD regB idx 0)))
      (off + 4) (idx + 1) k

/-- The `switch` body of `update_uniform_buffer` for one uniform. -/
def writeUniform (regF regI regB : List Nat) (buf : List (Option Nat))
    (off : Nat) (u : Uniform) : List (Option Nat) :=
  match u.type with
  | UniformType.uniformFloat => writeWords buf off (regWords regF u.index (usize u))
  | UniformType.uniformInt => writeWords buf off (regWords regI u.index (usize u))
  | UniformType.uniformBool => writeBools regB buf off u.index (usize u)

/-- The marshalling loop of `update_uniform_buffer`: process the uniforms in
declaration order, advancing `offset` by `size * 16` bytes (four words here)
after each uniform. -/
def update_uniform_buffer (regF regI regB : List Nat) :
    List Uniform → List (Option Nat) → Nat → List (Option Nat)
  | [], buf, _ => buf
  | u :: us, buf, off =>
    update_uniform_buffer regF regI regB us
      (writeUniform regF regI regB buf off u) (off + 4 * usize u)

/-- Total word length of the packed buffer: `size * 16` bytes, i.e. four
words, per uniform element (`MOJOSHADER_sdlCompileShader` computes the byte
form as `uniformBufferSize`). -/
def packedWordLen (us : List Uniform) : Nat :=
  (us.map (fun u => 4 * usize u)).sum

/-- Modelled from the spec: `k` consecutive 16-byte boolean slots starting
at register `idx` — each boolean register value is the first 32-bit word of
its slot, the remaining three words unwritten. -/
def boolBlock (regB : List Nat) (idx : Nat) : Nat → List (Option Nat)
  | 0 => []
  | k + 1 =>
    some (List.getD regB idx 0) :: none :: none :: none ::
      boolBlock regB (idx + 1) k

/-- Modelled from the spec: the packed slot of a single uniform — float and
integer uniforms copy `size * 16` bytes directly from the 4-component
register slot at `4 * index`; boolean uniforms write each boolean register
value as the first 32-bit word of its 16-byte slot, leaving the remaining
three words unwritten. -/
def packOne (regF regI regB : List Nat) (u : Uniform) : List (Option Nat) :=
  match u.type with
  | UniformType.uniformFloat => (regWords regF u.index (usize u)).map some
  | UniformType.uniformInt => (regWords regI u.index (usize u)).map some
  | UniformType.uniformBool => boolBlock regB u.index (usize u)

/-- Modelled from the spec: the whole packed buffer is the concatenation of
the per-uniform slots in declaration order, with no padding between them. -/
def packUniformsSpec (regF regI regB : List Nat) (us : List Uniform) :
    List (Option Nat) :=
  us.flatMap (packOne regF regI regB)

/-! ### SPIR-V vertex-attribute patching (inside `compile_program`)

The translator appends a `SpirvPatchTable` after the generated code.  For
every attribute of the caller-supplied layout, `compile_program` selects a
declared type id, a load type id and a conversion opcode from the element
format (`BYTE4 = 5`, `SHORT2 = 6`, `SHORT4 = 7` are the integer formats),
overwrites the recorded type-declaration word, and for every recorded load
site overwrites the type word and patches the low 16 bits of the opcode
word: `*ptr = (*ptr & 0xFFFF0000) | opcodeLoad`.  The generated code buffer
is a list of 32-bit words. -/

def SpvOpCopyObject : Nat := 83

def SpvOpConvertSToF : Nat := 111

def SpvOpConvertUToF : Nat := 112

/-- `0xFFFF0000`, the mask preserving the upper half of an opcode word. -/
def MASK_HI : Nat := 4294901760

structure VertexAttribute where
  usage : Nat
  usageIndex : Nat
  vertexElementFormat : Nat
deriving DecidableEq

structure SpirvPatchTable where
  tid_vec4 : Nat
  tid_ivec4 : Nat
  tid_uvec4 : Nat
  tid_vec4_p : Nat
  tid_ivec4_p : Nat
  tid_uvec4_p : Nat
  attrib_type_offsets : List (List Nat)
  attrib_type_load_offsets : List (List (List (Nat × Nat)))
deriving DecidableEq

/-- `vTable->attrib_type_offsets[element->usage][element->usageIndex]`. -/
def typeDeclOffsetOf (tbl : SpirvPatchTable) (a : VertexAttribute) : Nat :=
  List.getD (List.getD tbl.attrib_type_offsets a.usage []) a.usageIndex 0

/-- The `(load_types[j], load_opcodes[j])` pairs of
`vTable->attrib_type_load_offsets[element->usage][element->usageIndex]`. -/
def loadOffsetsOf (tbl : SpirvPatchTable) (a : VertexAttribute) :
    List (Nat × Nat) :=
  List.getD (List.getD tbl.attrib_type_load_offsets a.usage []) a.usageIndex []

/-- The inner load-site loop: for each recorded pair, overwrite the type
word with `typeLoad`, then rewrite the opcode word in place as
`(old & 0xFFFF0000) | opcode` (the type write precedes the opcode
read-modify-write, as in the C statement order). -/
def patchLoads (typeLoad opcode : Nat) : List Nat → List (Nat × Nat) → List Nat
  | buf, [] => buf
  | buf, p :: rest =>
    patchLoads typeLoad opcode
      (List.set (List.set buf p.1 typeLoad) p.2
        (List.getD (List.set buf p.1 typeLoad) p.2 0 &&& MASK_HI ||| opcode))
      rest

/-- The per-attribute body of the patch loop in `compile_program`: select
type ids and conversion opcode from `vertexElementFormat`, overwrite the
type-declaration word, then patch every recorded load site. -/
def patchAttribute (tbl : SpirvPatchTable) (buf : List Nat)
    (a : VertexAttribute) : List Nat :=
  patchLoads
    (if 5 ≤ a.vertexElementFormat ∧ a.vertexElementFormat ≤ 7 then
      (if a.vertexElementFormat = 5 then tbl.tid_uvec4 else tbl.tid_ivec4)
     else tbl.tid_vec4)
    (if 5 ≤ a.vertexElementFormat ∧ a.vertexElementFormat ≤ 7 then
      (if a.vertexElementFormat = 5 then SpvOpConvertUToF else SpvOpConvertSToF)
     else SpvOpCopyObject)
    (List.set buf (typeDeclOffsetOf tbl a)
      (if 5 ≤ a.vertexElementFormat ∧ a.vertexElementFormat ≤ 7 then
        (if a.vertexElementFormat = 5 then tbl.tid_uvec4_p else tbl.tid_ivec4_p)
       else tbl.tid_vec4_p))
    (loadOffsetsOf tbl a)

/-- The whole patch loop of `compile_program` over the caller-supplied
vertex-attribute layout, in order. -/
def patchVertexAttributes (tbl : SpirvPatchTable) (buf : List Nat)
    (attrs : List VertexAttribute) : List Nat :=
  attrs.foldl (patchAttribute tbl) buf

/-! ### Program linker and cache

`MOJOSHADER_sdlShaderData` is heap-allocated; `id` models its address (pointer
equality becomes equality of the structure value including `id`).  The linker
cache is the generic hash table collaborator with `hash_shaders` /
`match_shaders` / `nuke_shaders`; it is modelled as the list of its
key–value entries, looked up with `match_shaders` (consistent with the
hash prefilter by `hash_match_consistent`).  Host-API and allocator effects
are recorded in a `HostEvent` trace; the success or failure of each
fallible call of one link attempt is supplied by a `LinkEnv` oracle. -/

structure ShaderData where
  id : Nat
  tag : Nat
  refcount : Nat
deriving DecidableEq

/-- `LinkedShaderData`: the cache key — two `ShaderData` pointers and the
copied vertex-attribute layout (`vertexAttributes` is the 16-slot array,
zero-filled past `vertexAttributeCount`). -/
structure LinkedShaderData where
  vertex : Option ShaderData
  fragment : Option ShaderData
  vertexAttributes : List VertexAttribute
  vertexAttributeCount : Nat
deriving DecidableEq

/-- `(a->vertex) ? a->vertex->tag : 0` (the null case of `match_shaders`;
`hash_shaders` dereferences unconditionally, so its model is only faithful
for non-null keys — exactly the keys the linker builds). -/
def vTagOf (k : LinkedShaderData) : Nat :=
  match k.vertex with
  | some sh => sh.tag
  | none => 0

def fTagOf (k : LinkedShaderData) : Nat :=
  match k.fragment with
  | some sh => sh.tag
  | none => 0

/-- `s->vertexAttributes[i]` (the fixed 16-element array reads). -/
def attrAt (k : LinkedShaderData) (i : Nat) : VertexAttribute :=
  List.getD k.vertexAttributes i ⟨0, 0, 0⟩

def UINT32_MOD : Nat := 4294967296

/-- One `hash = hash * HASH_FACTOR + x;` step in `uint32_t` arithmetic. -/
def hashStep (h x : Nat) : Nat := (h * 31 + x) % UINT32_MOD

/-- `hash_shaders`: fold the attribute fields, then both shader tags, into a
32-bit hash seeded with the attribute count. -/
def hash_shaders (k : LinkedShaderData) : Nat :=
  hashStep
    (hashStep
      ((List.range k.vertexAttributeCount).foldl
        (fun h i =>
          hashStep (hashStep (hashStep h (attrAt k i).usage)
            (attrAt k i).usageIndex) (attrAt k i).vertexElementFormat)
        (k.vertexAttributeCount % UINT32_MOD))
      (vTagOf k))
    (fTagOf k)

/-- `match_shaders`: tags (0 for an absent shader), attribute count, then
every attribute's three fields in order, with early exit on mismatch. -/
def match_shaders (a b : LinkedShaderData) : Bool :=
  decide (vTagOf a = vTagOf b) &&
  decide (fTagOf a = fTagOf b) &&
  decide (a.vertexAttributeCount = b.vertexAttributeCount) &&
  (List.range a.vertexAttributeCount).all (fun i =>
    decide ((attrAt a i).usage = (attrAt b i).usage) &&
    decide ((attrAt a i).usageIndex = (attrAt b i).usageIndex) &&
    decide ((attrAt a i).vertexElementFormat
      = (attrAt b i).vertexElementFormat))

/-- `MOJOSHADER_sdlProgram`: `progId` models the record's address. -/
structure SdlProgram where
  progId : Nat
  vertexShader : Option Nat
  pixelShader : Option Nat
  vertexShaderData : Option ShaderData
  pixelShaderData : Option ShaderData
deriving DecidableEq

/-- Observable host-API and allocator effects, in call order. -/
inductive HostEvent where
  | createShader (stage : Nat) (handle : Nat)
  | createShaderFail (stage : Nat)
  | releaseShader (handle : Nat)
  | freeProgramRec (progId : Nat)
  | freeKeyRec
  | freeParseData (shaderId : Nat)
  | freeShaderRec (shaderId : Nat)
deriving DecidableEq

/-- `MOJOSHADER_sdlContext` (the fields the linker touches). -/
structure SdlContext where
  boundVShader : Option ShaderData
  boundPShader : Option ShaderData
  boundProgram : Option SdlProgram
  linkerCache : Option (List (LinkedShaderData × SdlProgram))
  blob : BlobTable
deriving DecidableEq

/-- Outcome oracle for the fallible calls of one link attempt. -/
structure LinkEnv where
  cacheCreateOk : Bool
  programAllocOk : Bool
  keyAllocOk : Bool
  insertOk : Bool
  vertexCreate : Option Nat
  fragmentCreate : Option Nat
  newProgId : Nat
deriving DecidableEq

inductive LinkOutcome where
  | ok (p : SdlProgram)
  | fail
  | nullDeref
deriving DecidableEq

structure LinkOut where
  state : SdlContext
  result : LinkOutcome
  trace : List HostEvent
deriving DecidableEq

/-- Events of `MOJOSHADER_sdlDeleteProgram`: release each non-null handle,
then free the program record. -/
def deleteProgramTrace (p : SdlProgram) : List HostEvent :=
  (match p.vertexShader with
   | some h => [HostEvent.releaseShader h]
   | none => []) ++
  (match p.pixelShader with
   | some h => [HostEvent.releaseShader h]
   | none => []) ++
  [HostEvent.freeProgramRec p.progId]

/-- `MOJOSHADER_sdlDeleteProgram`: clear the bound program if it is this one,
release both GPU handles, free the record.  Does not touch the cache. -/
def MOJOSHADER_sdlDeleteProgram (s : SdlContext) (p : SdlProgram) :
    SdlContext × List HostEvent :=
  ({ s with boundProgram := if s.boundProgram = some p then none
      else s.boundProgram },
   deleteProgramTrace p)

/-- The key built by `MOJOSHADER_sdlLinkProgram`: bound shaders, and the
caller's layout copied into the zeroed 16-slot array. -/
def mkKey (vsh psh : ShaderData) (attrs : List VertexAttribute) :
    LinkedShaderData :=
  { vertex := some vsh
    fragment := some psh
    vertexAttributes :=
      attrs.take 16 ++ List.replicate (16 - attrs.length) ⟨0, 0, 0⟩
    vertexAttributeCount := attrs.length }

/-- `hash_find` on the cache: first entry whose key matches under
`match_shaders`. -/
def cacheFind (cache : List (LinkedShaderData × SdlProgram))
    (k : LinkedShaderData) : Option SdlProgram :=
  match cache with
  | [] => none
  | e :: rest => if match_shaders e.1 k then some e.2 else cacheFind rest k

/-- `hash_create` on demand: the existing cache, or a fresh empty one when
the creation allocation succeeds. -/
def ensureCache (s : SdlContext) (env : LinkEnv) :
    Option (List (LinkedShaderData × SdlProgram)) :=
  match s.linkerCache with
  | some c => some c
  | none => if env.cacheCreateOk then some [] else none

/-- `compile_program` (non-blob path), effects only: allocate the program
record, patch the vertex IR in place (modelled separately by
`patchVertexAttributes`; it does not touch the context), create the vertex
shader object, then the fragment one; on fragment failure release the
already-created vertex handle; free the record on any failure. -/
def compile_program (env : LinkEnv) : Option SdlProgram × List HostEvent :=
  if env.programAllocOk = false then (none, [])
  else
    match env.vertexCreate with
    | none => (none, [HostEvent.createShaderFail 0,
        HostEvent.freeProgramRec env.newProgId])
    | some vh =>
      match env.fragmentCreate with
      | none =>
        (none, [HostEvent.createShader 0 vh, HostEvent.createShaderFail 1,
          HostEvent.releaseShader vh, HostEvent.freeProgramRec env.newProgId])
      | some fh =>
        (some ⟨env.newProgId, some vh, some fh, none, none⟩,
         [HostEvent.createShader 0 vh, HostEvent.createShader 1 fh])

/-- `compile_blob_program`: allocate the record, fetch both stages' blobs
from the archive (both content hashes are the stubs `hash_vertex_shader` /
`hash_pixel_shader`, which return 0), fail if either fetch misses, then the
same two creation calls with the same unwinding. -/
def compile_blob_program (blob : BlobTable) (env : LinkEnv) :
    Option SdlProgram × List HostEvent :=
  if env.programAllocOk = false then (none, [])
  else
    if (fetch_blob_shader blob 0).isNone ∨ (fetch_blob_shader blob 0).isNone
    then (none, [HostEvent.freeProgramRec env.newProgId])
    else
      match env.vertexCreate with
      | none => (none, [HostEvent.createShaderFail 0,
          HostEvent.freeProgramRec env.newProgId])
      | some vh =>
        match env.fragmentCreate with
        | none =>
          (none, [HostEvent.createShader 0 vh, HostEvent.createShaderFail 1,
            HostEvent.releaseShader vh,
            HostEvent.freeProgramRec env.newProgId])
        | some fh =>
          (some ⟨env.newProgId, some vh, some fh, none, none⟩,
           [HostEvent.createShader 0 vh, HostEvent.createShader 1 fh])

/-- `program->vertexShaderData = vshader; program->pixelShaderData =
pshader;` after a successful compile. -/
def setBackRefs (p : SdlProgram) (vsh psh : ShaderData) : SdlProgram :=
  { p with
    vertexShaderData := some vsh
    pixelShaderData := some psh }

/-- The cache-miss tail of `MOJOSHADER_sdlLinkProgram`: compile (blob or
direct path), set the program's back-references, heap-allocate the key and
insert.  The C code's `item == NULL` branch deletes the program but is
missing a `return`, so control falls through to `memcpy(item, …)` — a null
dereference, modelled as the `nullDeref` outcome after the delete's
events. -/
def linkMiss (s1 : SdlContext) (c : List (LinkedShaderData × SdlProgram))
    (key : LinkedShaderData) (vsh psh : ShaderData) (env : LinkEnv) :
    LinkOut :=
  match (if 0 < (List.length s1.blob) then compile_blob_program s1.blob env
         else compile_program env) with
  | (none, tr) => ⟨s1, LinkOutcome.fail, tr⟩
  | (some prog0, tr) =>
    if env.keyAllocOk = false then
      ⟨(MOJOSHADER_sdlDeleteProgram s1 (setBackRefs prog0 vsh psh)).1,
       LinkOutcome.nullDeref,
       tr ++ (MOJOSHADER_sdlDeleteProgram s1 (setBackRefs prog0 vsh psh)).2⟩
    else if env.insertOk = false then
      ⟨(MOJOSHADER_sdlDeleteProgram s1 (setBackRefs prog0 vsh psh)).1,
       LinkOutcome.fail,
       tr ++ HostEvent.freeKeyRec ::
         (MOJOSHADER_sdlDeleteProgram s1 (setBackRefs prog0 vsh psh)).2⟩
    else
      ⟨{ s1 with
          linkerCache := some ((key, setBackRefs prog0 vsh psh) :: c)
          boundProgram := some (setBackRefs prog0 vsh psh) },
       LinkOutcome.ok (setBackRefs prog0 vsh psh),
       tr⟩

/-- `MOJOSHADER_sdlLinkProgram`: both bound shaders must exist; create the
cache on first use; build the key; on a cache hit bind and return the
cached program with no further calls; on a miss compile, insert and bind. -/
def MOJOSHADER_sdlLinkProgram (s : SdlContext)
    (attrs : List VertexAttribute) (env : LinkEnv) : LinkOut :=
  match s.boundVShader, s.boundPShader with
  | some vsh, some psh =>
    (match ensureCache s env with
     | none => ⟨s, LinkOutcome.fail, []⟩
     | some c =>
       match cacheFind c (mkKey vsh psh attrs) with
       | some p =>
         ⟨{ s with linkerCache := some c, boundProgram := some p },
          LinkOutcome.ok p, []⟩
       | none => linkMiss { s with linkerCache := some c } c
           (mkKey vsh psh attrs) vsh psh env)
  | none, _ => ⟨s, LinkOutcome.fail, []⟩
  | some _, none => ⟨s, LinkOutcome.fail, []⟩

/-- `(shaders->vertex == shader) || (shaders->fragment == shader)` —
pointer comparison of the key's back-references against the shader being
deleted. -/
def refsShader (sh : ShaderData) (k : LinkedShaderData) : Bool :=
  decide (k.vertex = some sh) || decide (k.fragment = some sh)

/-- `hash_remove`: remove the first entry whose key matches the given key
under `match_shaders`, returning it and the remaining entries. -/
def hash_remove (cache : List (LinkedShaderData × SdlProgram))
    (k : LinkedShaderData) :
    Option ((LinkedShaderData × SdlProgram)
      × List (LinkedShaderData × SdlProgram)) :=
  match cache with
  | [] => none
  | e :: rest =>
    if match_shaders e.1 k then some (e, rest)
    else
      match hash_remove rest k with
      | some (e2, rest2) => some (e2, e :: rest2)
      | none => none

/-- `nuke_shaders`, the table's eviction callback: free the key record, then
delete the linked program (releasing both handles). -/
def nuke_shaders (s : SdlContext) (e : LinkedShaderData × SdlProgram) :
    SdlContext × List HostEvent :=
  ((MOJOSHADER_sdlDeleteProgram s e.2).1,
   HostEvent.freeKeyRec :: (MOJOSHADER_sdlDeleteProgram s e.2).2)

/-- The `hash_iter_keys` loop of `MOJOSHADER_sdlDeleteShader`: visit every
key (the next iteration position is captured before removing the current
entry, so the visit order is the original entry order), and `hash_remove` —
evicting through `nuke_shaders` — every key that references the dying
shader as either stage. -/
def evictLoop (sh : ShaderData) :
    List (LinkedShaderData × SdlProgram) → SdlContext →
      SdlContext × List HostEvent
  | [], s => (s, [])
  | e :: restKeys, s =>
    if refsShader sh e.1 then
      match hash_remove ((s.linkerCache).getD []) e.1 with
      | some (removed, remaining) =>
        ((evictLoop sh restKeys
            (nuke_shaders { s with linkerCache := some remaining } removed).1).1,
         (nuke_shaders { s with linkerCache := some remaining } removed).2 ++
           (evictLoop sh restKeys
             (nuke_shaders { s with linkerCache := some remaining }
               removed).1).2)
      | none => evictLoop sh restKeys s
    else evictLoop sh restKeys s

/-- `MOJOSHADER_sdlDeleteShader`: a reference count above 1 just decrements
(a heap mutation with no observable events here); at 1 the shader dies —
every cache entry referencing it is evicted first, then its parse data and
its record are freed. -/
def MOJOSHADER_sdlDeleteShader (s : SdlContext) (sh : ShaderData) :
    SdlContext × List HostEvent :=
  if 1 < sh.refcount then (s, [])
  else
    match s.linkerCache with
    | some cache =>
      ((evictLoop sh cache s).1,
       (evictLoop sh cache s).2 ++
         [HostEvent.freeParseData sh.id, HostEvent.freeShaderRec sh.id])
    | none =>
      (s, [HostEvent.freeParseData sh.id, HostEvent.freeShaderRec sh.id])

theorem getD_set_self {α : Type} (l : List α) (i : Nat) (v d : α)
    (h : i < l.length) : (l.set i v).getD i d = v := by
  induction l generalizing i with
  | nil => simp at h
  | cons a t ih =>
    cases i with
    | zero => simp [List.getD]
    | succ j => simpa [List.getD] using ih j (by simpa using h)

theorem getD_set_ne {α : Type} (l : List α) (i j : Nat) (v d : α)
    (h : i ≠ j) : (l.set i v).getD j d = l.getD j d := by
  induction l generalizing i j with
  | nil => simp [List.getD]
  | cons a t ih =>
    cases i with
    | zero =>
      cases j with
      | zero => exact absurd rfl h
      | succ k => simp [List.getD]
    | succ i2 =>
      cases j with
      | zero => simp [List.getD]
      | succ k => simpa [List.getD] using ih i2 k (by omega)

theorem getD_eq_default_of_le {α : Type} (l : List α) (i : Nat) (d : α)
    (h : l.length ≤ i) : l.getD i d = d := by
  induction l generalizing i with
  | nil => simp [List.getD]
  | cons a t ih =>
    cases i with
    | zero => simp at h
    | succ j => simpa [List.getD] using ih j (by simpa using h)

theorem lt_length_of_getD_ne {α : Type} (l : List α) (i : Nat) (d : α)
    (h : l.getD i d ≠ d) : i < l.length := by
  by_contra hlt
  exact h (getD_eq_default_of_le l i d (by omega))

theorem getD_replicate {α : Type} (n i : Nat) (c : α) :
    (List.replicate n c).getD i c = c := by
  induction n generalizing i with
  | zero => simp [List.getD]
  | succ m ih =>
    cases i with
    | zero => simp [List.replicate, List.getD]
    | succ j => simp [List.replicate, List.getD, ih j]

theorem set_append_len {α : Type} (l1 : List α) (x v : α) (l2 : List α) :
    (l1 ++ x :: l2).set l1.length v = l1 ++ v :: l2 := by
  induction l1 with
  | nil => simp
  | cons a t ih => simp [ih]

theorem getD_append_lt {α : Type} (l1 l2 : List α) (i : Nat) (d : α)
    (h : i < l1.length) : (l1 ++ l2).getD i d = l1.getD i d := by
  induction l1 generalizing i with
  | nil => simp at h
  | cons a t ih =>
    cases i with
    | zero => simp [List.getD]
    | succ j => simpa [List.getD] using ih j (by simpa using h)

theorem getD_eq_get {α : Type} (l : List α) (i : Nat) (d : α)
    (h : i < l.length) : l.getD i d = l.get ⟨i, h⟩ := by
  induction l generalizing i with
  | nil => simp at h
  | cons a t ih =>
    cases i with
    | zero => simp [List.getD]
    | succ j => simpa [List.getD] using ih j (by simpa using h)

theorem freeCount_replicate (n : Nat) : freeCount (List.replicate n none) = n := by
  induction n with
  | zero => simp [freeCount]
  | succ m ih => simp [freeCount, List.replicate, List.countP_cons] at ih ⊢; omega

theorem freeCount_set (t : BlobTable) (i : Nat) (e : ShaderEntry)
    (hfree : List.getD t i none = none) (hi : i < List.length t) :
    freeCount (List.set t i (some e)) + 1 = freeCount t := by
  induction t generalizing i with
  | nil => simp at hi
  | cons a rest ih =>
    cases i with
    | zero =>
      rw [List.getD_cons_zero] at hfree
      simp [freeCount, List.set, List.countP_cons, hfree]
    | succ j =>
      rw [List.getD_cons_succ] at hfree
      have := ih j hfree (by simpa using hi)
      simp only [freeCount, List.set, List.countP_cons] at this ⊢
      omega

theorem freeCount_pos_exists (t : BlobTable) (h : 0 < freeCount t) :
    ∃ i, i < List.length t ∧ List.getD t i none = none := by
  induction t with
  | nil => simp [freeCount] at h
  | cons a rest ih =>
    by_cases ha : a = (none : Option ShaderEntry)
    · exact ⟨0, by simp, by rw [List.getD_cons_zero, ha]⟩
    · have heq : freeCount (a :: rest) = freeCount rest := by
        simp [freeCount, List.countP_cons, ha]
      rw [heq] at h
      obtain ⟨i, hi, hfree⟩ := ih h
      refine ⟨i + 1, by simp; omega, ?_⟩
      rw [List.getD_cons_succ]
      exact hfree

/-- If any slot of the table is unused, the probe loop of
`load_precompiled_blob` reaches an unused slot within its fuel: probing
visits `(idx + 1) % N, (idx + 2) % N, …`, and a free slot at probe distance
`k ≤ fuel` is reached (or an earlier free slot is taken). -/
theorem findFreeSlot_free (t : BlobTable) (hn : 0 < List.length t) :
    ∀ (fuel idx : Nat),
      (∃ k, 1 ≤ k ∧ k ≤ fuel ∧
        List.getD t ((idx + k) % List.length t) none = none) →
      List.getD t (findFreeSlot t idx fuel) none = none ∧
        findFreeSlot t idx fuel < List.length t := by
  intro fuel
  induction fuel with
  | zero =>
    rintro idx ⟨k, hk1, hk0, _⟩
    omega
  | succ m ih =>
    rintro idx ⟨k, hk1, hkle, hfree⟩
    have hdef : findFreeSlot t idx (m + 1)
        = if List.getD t ((idx + 1) % List.length t) none = none
          then (idx + 1) % List.length t
          else findFreeSlot t ((idx + 1) % List.length t) m := rfl
    by_cases hc : List.getD t ((idx + 1) % List.length t) none = none
    · rw [hdef, if_pos hc]
      exact ⟨hc, Nat.mod_lt _ hn⟩
    · have hk2 : 2 ≤ k := by
        by_contra hk
        have hk1eq : k = 1 := by omega
        rw [hk1eq] at hfree
        exact hc hfree
      have hstep : ((idx + 1) % List.length t + (k - 1)) % List.length t
          = (idx + k) % List.length t := by
        rw [Nat.mod_add_mod]
        congr 1
        omega
      have hres := ih ((idx + 1) % List.length t)
        ⟨k - 1, by omega, by omega, by rw [hstep]; exact hfree⟩
      rw [hdef, if_neg hc]
      exact hres

/-- Every slot `j` of an `n`-slot table is visited by the build's probe
sequence within `n` probes: there is a probe distance `k ∈ [1, n]` with
`(idx + k) % n = j`. -/
theorem exists_probe_hit (n : Nat) (hn : 0 < n) (idx j : Nat) (hj : j < n) :
    ∃ k, 1 ≤ k ∧ k ≤ n ∧ (idx + k) % n = j := by
  refine ⟨(j + n - (idx + 1) % n) % n + 1, by omega, ?_, ?_⟩
  · have := Nat.mod_lt (j + n - (idx + 1) % n) hn
    omega
  · have hs : (idx + 1) % n < n := Nat.mod_lt _ hn
    have h1 : idx + ((j + n - (idx + 1) % n) % n + 1)
        = (idx + 1) + (j + n - (idx + 1) % n) % n := by omega
    rw [h1]
    calc ((idx + 1) + (j + n - (idx + 1) % n) % n) % n
        = ((idx + 1) + (j + n - (idx + 1) % n)) % n := by
          rw [Nat.add_mod_mod]
      _ = ((idx + 1) % n + (j + n - (idx + 1) % n)) % n := by
          rw [Nat.mod_add_mod]
      _ = (j + n) % n := by
          congr 1
          omega
      _ = j := by
          rw [Nat.add_mod_right]
          exact Nat.mod_eq_of_lt hj

/-- Invariant of the insertion loop of `load_precompiled_blob`: inserting the
remaining entries `rest` into a table already holding exactly the entries of
`done` (each in one slot, hashes pairwise distinct across `done ++ rest`,
with `n - done.length` unused slots left) yields a table in which every entry
of `done ++ rest` sits in some slot, and distinct slots never hold entries
with equal hashes. -/
theorem build_invariant (n : Nat) (hn : 0 < n) :
    ∀ (rest done : List ShaderEntry) (t : BlobTable),
      List.length t = n →
      ((done ++ rest).map ShaderEntry.hash).Nodup →
      freeCount t = n - done.length →
      done.length + rest.length ≤ n →
      (∀ i e2, List.getD t i none = some e2 → e2 ∈ done) →
      (∀ e2 ∈ done, ∃ i, i < n ∧ List.getD t i none = some e2) →
      (∀ i j e1 e2, List.getD t i none = some e1 →
        List.getD t j none = some e2 → e1.hash = e2.hash → i = j ∧ e1 = e2) →
      (∀ e2 ∈ done ++ rest,
        ∃ i, i < n ∧ List.getD (rest.foldl insertEntry t) i none = some e2) ∧
      (∀ i j e1 e2, List.getD (rest.foldl insertEntry t) i none = some e1 →
        List.getD (rest.foldl insertEntry t) j none = some e2 →
        e1.hash = e2.hash → i = j ∧ e1 = e2) := by
  intro rest
  induction rest with
  | nil =>
    intro done t hlen hnodup hfree hcap hmem hdone huniq
    refine ⟨?_, ?_⟩
    · intro e2 he2
      exact hdone e2 (by simpa using he2)
    · exact huniq
  | cons e rs ih =>
    intro done t hlen hnodup hfree hcap hmem hdone huniq
    -- a free slot exists, so the probe loop stores `e` in a free slot
    have hfc : 0 < freeCount t := by
      simp only [List.length_cons] at hcap
      omega
    obtain ⟨j, hj, hjfree⟩ := freeCount_pos_exists t hfc
    obtain ⟨k, hk1, hkn, hkhit⟩ :=
      exists_probe_hit (List.length t) (by omega) (e.hash % List.length t) j hj
    have hslot := findFreeSlot_free t (by omega) (List.length t)
      (e.hash % List.length t) ⟨k, hk1, by omega, by rw [hkhit]; exact hjfree⟩
    set s := findFreeSlot t (e.hash % List.length t) (List.length t) with hs
    obtain ⟨hsfree, hslt⟩ := hslot
    have ht1len : List.length (insertEntry t e) = n := by
      simp [insertEntry, ← hs, hlen]
    have ht1get_s : List.getD (insertEntry t e) s none = some e := by
      simp only [insertEntry, ← hs]
      exact getD_set_self t s (some e) none hslt
    have ht1get_ne : ∀ i, i ≠ s →
        List.getD (insertEntry t e) i none = List.getD t i none := by
      intro i hi
      simp only [insertEntry, ← hs]
      exact getD_set_ne t s i (some e) none (fun hcon => hi hcon.symm)
    -- the new entry's hash is absent from `done`
    have hfresh : e.hash ∉ done.map ShaderEntry.hash := by
      have := hnodup
      rw [List.map_append, List.nodup_append] at this
      have hdisj := this.2.2
      intro hin
      exact hdisj hin (by simp)
    have hnodup2 : (((done ++ [e]) ++ rs).map ShaderEntry.hash).Nodup := by
      have hperm : (done ++ [e]) ++ rs = done ++ e :: rs := by simp
      rw [hperm]
      exact hnodup
    have hfree2 : freeCount (insertEntry t e) = n - (done ++ [e]).length := by
      have := freeCount_set t s e hsfree hslt
      simp only [insertEntry, ← hs]
      simp only [List.length_cons] at hcap
      simp only [List.length_append, List.length_cons, List.length_nil]
      omega
    have hcap2 : (done ++ [e]).length + rs.length ≤ n := by
      simp only [List.length_cons] at hcap
      simp only [List.length_append, List.length_cons, List.length_nil]
      omega
    have hmem2 : ∀ i e2, List.getD (insertEntry t e) i none = some e2 →
        e2 ∈ done ++ [e] := by
      intro i e2 hget
      by_cases hi : i = s
      · rw [hi, ht1get_s] at hget
        simp [Option.some.injEq] at hget
        simp [hget]
      · rw [ht1get_ne i hi] at hget
        exact List.mem_append_left _ (hmem i e2 hget)
    have hdone2 : ∀ e2 ∈ done ++ [e], ∃ i, i < n ∧
        List.getD (insertEntry t e) i none = some e2 := by
      intro e2 he2
      rcases List.mem_append.mp he2 with hin | hin
      · obtain ⟨i, hi, hget⟩ := hdone e2 hin
        have hne : i ≠ s := by
          intro hcon
          rw [hcon, hsfree] at hget
          exact Option.noConfusion hget
        exact ⟨i, hi, by rw [ht1get_ne i hne]; exact hget⟩
      · have he2e : e2 = e := by simpa using hin
        exact ⟨s, by omega, by rw [he2e]; exact ht1get_s⟩
    have huniq2 : ∀ i j2 e1 e2, List.getD (insertEntry t e) i none = some e1 →
        List.getD (insertEntry t e) j2 none = some e2 → e1.hash = e2.hash →
        i = j2 ∧ e1 = e2 := by
      intro i j2 e1 e2 hg1 hg2 hh
      by_cases hi : i = s <;> by_cases hj2 : j2 = s
      · subst hi; subst hj2
        rw [ht1get_s] at hg1 hg2
        have h1 : e1 = e := by simpa using hg1.symm
        have h2 : e2 = e := by simpa using hg2.symm
        exact ⟨rfl, by rw [h1, h2]⟩
      · subst hi
        rw [ht1get_s] at hg1
        have h1 : e1 = e := by simpa using hg1.symm
        rw [ht1get_ne j2 hj2] at hg2
        have h2 : e2 ∈ done := hmem j2 e2 hg2
        exfalso
        apply hfresh
        rw [h1] at hh
        rw [hh]
        exact List.mem_map_of_mem ShaderEntry.hash h2
      · subst hj2
        rw [ht1get_s] at hg2
        have h2 : e2 = e := by simpa using hg2.symm
        rw [ht1get_ne i hi] at hg1
        have h1 : e1 ∈ done := hmem i e1 hg1
        exfalso
        apply hfresh
        rw [h2] at hh
        rw [← hh]
        exact List.mem_map_of_mem ShaderEntry.hash h1
      · rw [ht1get_ne i hi] at hg1
        rw [ht1get_ne j2 hj2] at hg2
        exact huniq i j2 e1 e2 hg1 hg2 hh
    have hconc := ih (done ++ [e]) (insertEntry t e) ht1len hnodup2 hfree2
      hcap2 hmem2 hdone2 huniq2
    refine ⟨?_, ?_⟩
    · intro e2 he2
      have : e2 ∈ (done ++ [e]) ++ rs := by
        simpa using he2
      simpa [List.foldl_cons] using hconc.1 e2 this
    · simpa [List.foldl_cons] using hconc.2

theorem foldl_insert_length (es : List ShaderEntry) :
    ∀ t : BlobTable, List.length (es.foldl insertEntry t) = List.length t := by
  induction es with
  | nil => intro t; simp
  | cons e rs ih => intro t; simp [List.foldl_cons, ih, insertEntry]

/-- The probe loop of `fetch_blob_shader` returns the entry stored at the
unique slot whose hash matches the query, provided the `uint64_t` additions
`hash + probes` do not wrap. -/
theorem lookupAux_spec (t : BlobTable) (h : Nat) (e : ShaderEntry) (p0 : Nat)
    (hb : h + List.length t ≤ UINT64_MOD)
    (hslot : List.getD t ((h + p0) % List.length t) none = some e)
    (hhash : e.hash = h)
    (hnomatch : ∀ q, q < p0 → ∀ e2,
      List.getD t ((h + q) % List.length t) none = some e2 → e2.hash ≠ h) :
    ∀ (fuel p : Nat), p + fuel = List.length t → p ≤ p0 →
      p0 < List.length t → lookupAux t h p fuel = some (e.offset, e.size) := by
  intro fuel
  induction fuel with
  | zero =>
    intro p hpf hpp0 hp0
    omega
  | succ m ih =>
    intro p hpf hpp0 hp0
    have hplt : p < List.length t := by omega
    have hmod : (h + p) % UINT64_MOD = h + p := Nat.mod_eq_of_lt (by omega)
    have hdef : lookupAux t h p (m + 1)
        = match List.getD t ((h + p) % UINT64_MOD % List.length t) none with
          | some e2 =>
            if e2.hash = h then some (e2.offset, e2.size)
            else lookupAux t h (p + 1) m
          | none => lookupAux t h (p + 1) m := rfl
    rw [hdef, hmod]
    rcases Nat.eq_or_lt_of_le hpp0 with hpe | hplt0
    · rw [hpe, hslot]
      simp [hhash]
    · cases hcase : List.getD t ((h + p) % List.length t) none with
      | none =>
        simp only []
        exact ih (p + 1) (by omega) (by omega) hp0
      | some e2 =>
        have hne : e2.hash ≠ h := hnomatch p hplt0 e2 hcase
        simp only [hne, if_false]
        exact ih (p + 1) (by omega) (by omega) hp0

theorem lookup_found (t : BlobTable) (h : Nat) (e : ShaderEntry)
    (hn : 0 < List.length t)
    (hb : h + List.length t ≤ UINT64_MOD)
    (i : Nat) (hi : i < List.length t)
    (hslot : List.getD t i none = some e) (hhash : e.hash = h)
    (huniq : ∀ j e2, List.getD t j none = some e2 → e2.hash = h → j = i) :
    fetch_blob_shader t h = some (e.offset, e.size) := by
  have hp0 : (i + List.length t - h % List.length t) % List.length t
      < List.length t := Nat.mod_lt _ hn
  have hmlt : h % List.length t < List.length t := Nat.mod_lt _ hn
  have hhit : (h + (i + List.length t - h % List.length t) % List.length t)
      % List.length t = i := by
    calc (h + (i + List.length t - h % List.length t) % List.length t)
          % List.length t
        = (h + (i + List.length t - h % List.length t)) % List.length t := by
          rw [Nat.add_mod_mod]
      _ = (h % List.length t + (i + List.length t - h % List.length t))
          % List.length t := by
          rw [Nat.mod_add_mod]
      _ = (i + List.length t) % List.length t := by
          congr 1
          omega
      _ = i := by
          rw [Nat.add_mod_right]
          exact Nat.mod_eq_of_lt hi
  have hnomatch : ∀ q, q < (i + List.length t - h % List.length t)
      % List.length t → ∀ e2,
      List.getD t ((h + q) % List.length t) none = some e2 → e2.hash ≠ h := by
    intro q hq e2 hget hh2
    have hji : (h + q) % List.length t = i := huniq _ e2 hget hh2
    have heq2 : (h + q) % List.length t = (h + (i + List.length t
        - h % List.length t) % List.length t) % List.length t := by
      rw [hji, hhit]
    have hmodeq : q % List.length t = (i + List.length t
        - h % List.length t) % List.length t % List.length t :=
      Nat.ModEq.add_left_cancel' h heq2
    rw [Nat.mod_eq_of_lt (by omega), Nat.mod_eq_of_lt hp0] at hmodeq
    omega
  have := lookupAux_spec t h e _ hb (by rw [hhit]; exact hslot) hhash hnomatch
    (List.length t) 0 (by omega) (by omega) hp0
  exact this

/-- C1 (amended): for every table size `n ≥ 1` and every list of `n` entries
with pairwise-distinct hashes, inserted by the build algorithm of
`load_precompiled_blob` (home slot `hash % n`, probing forward from
`home + 1`, wrapping, for the first unused slot), a `fetch_blob_shader`
lookup of an inserted entry's hash — probing `(hash + 0) % n`,
`(hash + 1) % n`, … up to `n` probes, stopping at the first slot whose
stored hash equals the query — returns that entry's offset/size pair,
provided the queried hash satisfies `hash + n ≤ 2 ^ 64`, so that the
`uint64_t` addition `hash + probes` never wraps during the probe scan.  (The
unamended claim, quantifying over all 64-bit hash values, fails: see the
counterexample.) -/
theorem archive_roundtrip (n : Nat) (entries : List ShaderEntry)
    (e : ShaderEntry) (hn : 1 ≤ n) (hlen : entries.length = n)
    (hnodup : (entries.map ShaderEntry.hash).Nodup)
    (hbound : e.hash + n ≤ UINT64_MOD)
    (he : e ∈ entries) :
    fetch_blob_shader (load_precompiled_blob n entries) e.hash
      = some (e.offset, e.size) := by
  have hinv := build_invariant n (by omega) entries [] (List.replicate n none)
    (by simp)
    (by simpa using hnodup)
    (by simp [freeCount_replicate])
    (by simp [hlen])
    (by
      intro i e2 hget
      rw [getD_replicate] at hget
      exact Option.noConfusion hget)
    (by intro e2 he2; simp at he2)
    (by
      intro i j e1 e2 hg1 _ _
      rw [getD_replicate] at hg1
      exact Option.noConfusion hg1)
  obtain ⟨hdone, huniq⟩ := hinv
  obtain ⟨i, hi, hslot⟩ := hdone e (by simpa using he)
  have htlen : List.length (load_precompiled_blob n entries) = n := by
    unfold load_precompiled_blob
    simp [foldl_insert_length]
  apply lookup_found (load_precompiled_blob n entries) e.hash e
    (by omega) (by rw [htlen]; exact hbound) i (by omega)
    hslot rfl
  intro j e2 hget hh2
  have := huniq j i e2 e hget hslot (by rw [hh2])
  exact this.1

/-- C1 counterexample: with table size 3 and the three distinct hashes
`3`, `2 ^ 64 - 1`, `5` inserted in file order, the entry with hash
`2 ^ 64 - 1` is stored at slot 2, but the lookup's `uint64_t` sum
`hash + probes` wraps to 0 at the second probe, so the probe sequence visits
slots 0, 0, 1 only and `fetch_blob_shader` misses the entry, reporting the
archive incomplete instead of returning the stored offset/size pair `(20, 21)`. -/
theorem archive_roundtrip_counterexample :
    (([⟨3, 10, 11⟩, ⟨18446744073709551615, 20, 21⟩,
        ⟨5, 30, 31⟩] : List ShaderEntry).map ShaderEntry.hash).Nodup ∧
    fetch_blob_shader
      (load_precompiled_blob 3
        [⟨3, 10, 11⟩, ⟨18446744073709551615, 20, 21⟩, ⟨5, 30, 31⟩])
      18446744073709551615 ≠ some (20, 21) := by
  constructor
  · decide
  · decide

/-- Witness for `archive_roundtrip` at a concrete archive: table size 2,
entries with hashes 0 and 1; looking up hash 1 returns its pair `(3, 4)`. -/
theorem archive_roundtrip_witness :
    fetch_blob_shader (load_precompiled_blob 2 [⟨0, 1, 2⟩, ⟨1, 3, 4⟩]) 1
      = some (3, 4) :=
  archive_roundtrip 2 [⟨0, 1, 2⟩, ⟨1, 3, 4⟩] ⟨1, 3, 4⟩ (by decide) (by decide)
    (by decide) (by decide) (by decide)

theorem shaderTagCounter_closed (k : Nat) :
    shaderTagCounter k = (1 + k) % UINT16_MOD := by
  induction k with
  | zero => rw [shaderTagCounter, UINT16_MOD]
  | succ m ih =>
    rw [shaderTagCounter, ih, UINT16_MOD] at *
    omega

/-- C9 (amended): tags are drawn from the process-wide counter starting at 1
and incremented once per assignment, and they are strictly increasing — hence
unique — for the first 65535 successful compiles (indices up to 65534).  The
unamended claim, over every sequence of compile calls, fails because the
counter is a `uint16_t` and wraps; see the counterexample. -/
theorem tag_monotone_unique (m n : Nat) (hmn : m < n) (hn : n ≤ 65534) :
    tagOfCompile m < tagOfCompile n := by
  rw [tagOfCompile, tagOfCompile, shaderTagCounter_closed,
    shaderTagCounter_closed, UINT16_MOD]
  omega

/-- C9 counterexample: the 16-bit tag counter wraps.  Compile number 65535
receives tag 0 after compile number 65534 received tag 65535 (assignment is
not monotonic), and compile number 65536 receives tag 1 again — the same tag
as compile number 0 — so tags are not unique over every sequence of compile
calls. -/
theorem tag_counter_wrap_counterexample :
    tagOfCompile 65534 = 65535 ∧ tagOfCompile 65535 = 0 ∧
    tagOfCompile 0 = 1 ∧ tagOfCompile 65536 = 1 := by
  refine ⟨?_, ?_, ?_, ?_⟩ <;>
    rw [tagOfCompile, shaderTagCounter_closed, UINT16_MOD]

/-- Witness for `tag_monotone_unique`: the first two compiles receive tags
1 and 2. -/
theorem tag_monotone_unique_witness :
    0 < 1 ∧ (1 : Nat) ≤ 65534 ∧ tagOfCompile 0 < tagOfCompile 1 :=
  ⟨by decide, by decide, tag_monotone_unique 0 1 (by decide) (by decide)⟩

theorem writeWords_fill (ws : List Nat) :
    ∀ (done mid rest : List (Option Nat)), mid.length = ws.length →
      writeWords (done ++ mid ++ rest) done.length ws
        = done ++ ws.map some ++ rest := by
  induction ws with
  | nil =>
    intro done mid rest hlen
    have : mid = [] := List.eq_nil_of_length_eq_zero (by simpa using hlen)
    simp [writeWords, this]
  | cons w ws2 ih =>
    intro done mid rest hlen
    cases mid with
    | nil => simp at hlen
    | cons m mid2 =>
      have hset : (done ++ (m :: mid2) ++ rest).set done.length (some w)
          = done ++ some w :: (mid2 ++ rest) := by
        have := set_append_len done m (some w) (mid2 ++ rest)
        simpa using this
      rw [writeWords, hset]
      have hre : done ++ some w :: (mid2 ++ rest)
          = (done ++ [some w]) ++ mid2 ++ rest := by simp
      have hoff : done.length + 1 = (done ++ [some w]).length := by simp
      rw [hre, hoff, ih (done ++ [some w]) mid2 rest (by simpa using hlen)]
      simp

theorem writeBools_fill (regB : List Nat) (k : Nat) :
    ∀ (done rest : List (Option Nat)) (idx : Nat),
      writeBools regB (done ++ List.replicate (4 * k) none ++ rest)
          done.length idx k
        = done ++ boolBlock regB idx k ++ rest := by
  induction k with
  | zero => intro done rest idx; simp [writeBools, boolBlock]
  | succ m ih =>
    intro done rest idx
    have hrep : List.replicate (4 * (m + 1)) (none : Option Nat)
        = none :: none :: none :: none :: List.replicate (4 * m) none := by
      have h4 : 4 * (m + 1) = 4 + 4 * m := by omega
      rw [h4, List.replicate_add]
      rfl
    have hset : (done ++ (none :: none :: none :: none ::
          List.replicate (4 * m) none) ++ rest).set done.length
          (some (List.getD regB idx 0))
        = done ++ some (List.getD regB idx 0) :: none :: none :: none ::
            (List.replicate (4 * m) none ++ rest) := by
      have := set_append_len done none (some (List.getD regB idx 0))
        (none :: none :: none :: (List.replicate (4 * m) none ++ rest))
      simpa using this
    rw [hrep, writeBools, hset]
    have hre : done ++ some (List.getD regB idx 0) :: none :: none :: none ::
          (List.replicate (4 * m) none ++ rest)
        = (done ++ [some (List.getD regB idx 0), none, none, none])
            ++ List.replicate (4 * m) none ++ rest := by simp
    have hoff : done.length + 4
        = (done ++ [some (List.getD regB idx 0), none, none, none]).length := by
      simp
    rw [hre, hoff, ih (done ++ [some (List.getD regB idx 0), none, none, none])
      rest (idx + 1)]
    simp [boolBlock]

theorem boolBlock_length (regB : List Nat) (k : Nat) :
    ∀ idx, (boolBlock regB idx k).length = 4 * k := by
  induction k with
  | zero => intro idx; simp [boolBlock]
  | succ m ih =>
    intro idx
    simp only [boolBlock, List.length_cons, ih (idx + 1)]
    omega

theorem packOne_length (regF regI regB : List Nat) (u : Uniform) :
    (packOne regF regI regB u).length = 4 * usize u := by
  cases htype : u.type <;>
    simp [packOne, htype, regWords, boolBlock_length]

/-- The marshalling loop, run on a fresh staging region of exactly the
remaining packed length, produces the concatenation of the per-uniform
slots.  `done` is the already-packed prefix, whose length is the loop's
current `offset`. -/
theorem update_uniform_buffer_spec (regF regI regB : List Nat) :
    ∀ (us : List Uniform) (done : List (Option Nat)),
      update_uniform_buffer regF regI regB us
          (done ++ List.replicate (packedWordLen us) none) done.length
        = done ++ packUniformsSpec regF regI regB us := by
  intro us
  induction us with
  | nil => intro done; simp [update_uniform_buffer, packedWordLen, packUniformsSpec]
  | cons u us2 ih =>
    intro done
    have hsplit : List.replicate (packedWordLen (u :: us2)) (none : Option Nat)
        = List.replicate (4 * usize u) none
            ++ List.replicate (packedWordLen us2) none := by
      have hlen2 : packedWordLen (u :: us2) = 4 * usize u + packedWordLen us2 := by
        simp [packedWordLen]
      rw [hlen2, List.replicate_add]
    rw [update_uniform_buffer, hsplit]
    have hwrite : writeUniform regF regI regB
        (done ++ (List.replicate (4 * usize u) none
          ++ List.replicate (packedWordLen us2) none)) done.length u
        = (done ++ packOne regF regI regB u)
            ++ List.replicate (packedWordLen us2) none := by
      cases htype : u.type
      · rw [writeUniform, htype]
        have := writeWords_fill (regWords regF u.index (usize u)) done
          (List.replicate (4 * usize u) none)
          (List.replicate (packedWordLen us2) none)
          (by simp [regWords])
        simp only [← List.append_assoc] at this ⊢
        rw [this]
        simp [packOne, htype]
      · rw [writeUniform, htype]
        have := writeWords_fill (regWords regI u.index (usize u)) done
          (List.replicate (4 * usize u) none)
          (List.replicate (packedWordLen us2) none)
          (by simp [regWords])
        simp only [← List.append_assoc] at this ⊢
        rw [this]
        simp [packOne, htype]
      · rw [writeUniform, htype]
        have := writeBools_fill regB (usize u) done
          (List.replicate (packedWordLen us2) none) u.index
        simp only [← List.append_assoc] at this ⊢
        rw [this]
        simp [packOne, htype]
    rw [hwrite]
    have hoff : done.length + 4 * usize u
        = (done ++ packOne regF regI regB u).length := by
      simp [packOne_length]
    rw [hoff, ih (done ++ packOne regF regI regB u)]
    simp [packUniformsSpec]

/-- C6: the marshalling loop of `update_uniform_buffer` iterates the
shader's uniforms in declaration order; with element count
`size = max(array_count, 1)`, float and integer uniforms copy `size * 16`
bytes (`4 * size` 32-bit words) directly from the 4-component register slot
at `4 * index` of the corresponding register file, boolean uniforms write
each boolean register value as the first 32-bit word of its 16-byte slot,
and the output offset advances by exactly `size * 16` bytes per uniform with
no other padding — the packed buffer is exactly the concatenation of the
per-uniform slots.  In particular, for one float uniform (array count 0) at
register 0 followed by one boolean uniform (array count 2) at register 4,
with `floats[0..3] = {1,2,3,4}`, `bools[4] = 1`, `bools[5] = 0`, the packed
output is 48 bytes (12 words): words 0–3 are the float vector `{1,2,3,4}`,
word 4 (bytes 16–19) is 1, and word 8 (bytes 32–35) is 0. -/
theorem uniform_packing :
    (∀ (regF regI regB : List Nat) (us : List Uniform),
      update_uniform_buffer regF regI regB us
          (List.replicate (packedWordLen us) none) 0
        = packUniformsSpec regF regI regB us) ∧
    update_uniform_buffer [1, 2, 3, 4] [] [0, 0, 0, 0, 1, 0]
        [⟨UniformType.uniformFloat, 0, 0⟩, ⟨UniformType.uniformBool, 4, 2⟩]
        (List.replicate 12 none) 0
      = [some 1, some 2, some 3, some 4,
         some 1, none, none, none,
         some 0, none, none, none] := by
  constructor
  · intro regF regI regB us
    have := update_uniform_buffer_spec regF regI regB us []
    simpa using this
  · decide

theorem land_mask_hi (old : Nat) (h32 : old < 4294967296) :
    old &&& MASK_HI = 2 ^ 16 * (old / 2 ^ 16) := by
  have hmask : MASK_HI = 2 ^ 16 * (2 ^ 16 - 1) := by decide
  have hdiv : old / 2 ^ 16 = old >>> 16 := (Nat.shiftRight_eq_div_pow old 16).symm
  rw [hmask, hdiv]
  apply Nat.eq_of_testBit_eq
  intro i
  rw [Nat.testBit_and, Nat.testBit_mul_pow_two, Nat.testBit_mul_pow_two,
    Nat.testBit_two_pow_sub_one, Nat.testBit_shiftRight]
  by_cases h16 : 16 ≤ i
  · by_cases hi32 : i < 32
    · have heq : 16 + (i - 16) = i := by omega
      have hlt : i - 16 < 16 := by omega
      simp [h16, hlt, heq]
    · have hpow : (4294967296 : Nat) ≤ 2 ^ i := by
        have h1 : (4294967296 : Nat) = 2 ^ 32 := by norm_num
        rw [h1]
        exact Nat.pow_le_pow_right (by norm_num) (by omega)
      have hbit : old.testBit i = false := Nat.testBit_lt_two_pow (by omega)
      have heq : 16 + (i - 16) = i := by omega
      simp [h16, heq, hbit]
  · simp [h16]

/-- `(old & 0xFFFF0000) | opcode` splits as high half of `old` plus the
opcode, for a 32-bit `old` and a 16-bit opcode. -/
theorem patch_opcode_word (old op : Nat) (h32 : old < 4294967296)
    (hop : op < 65536) :
    old &&& MASK_HI ||| op = 2 ^ 16 * (old / 2 ^ 16) + op := by
  have hop2 : op < 2 ^ 16 := by
    have hp : (2 : Nat) ^ 16 = 65536 := by norm_num
    omega
  rw [land_mask_hi old h32]
  exact (Nat.mul_add_lt_is_or hop2 _).symm

theorem patchLoads_getD_notmem (typeLoad opcode : Nat) :
    ∀ (L : List (Nat × Nat)) (buf : List Nat) (i : Nat),
      (∀ p ∈ L, p.1 ≠ i ∧ p.2 ≠ i) →
      List.getD (patchLoads typeLoad opcode buf L) i 0 = List.getD buf i 0 := by
  intro L
  induction L with
  | nil => intro buf i _; rfl
  | cons q rest ih =>
    intro buf i hni
    rw [patchLoads,
      ih _ i (fun r hr => hni r (List.mem_cons_of_mem q hr)),
      getD_set_ne _ _ _ _ _ (hni q (List.mem_cons_self q rest)).2,
      getD_set_ne _ _ _ _ _ (hni q (List.mem_cons_self q rest)).1]

theorem patchLoads_spec (typeLoad opcode : Nat) :
    ∀ (L : List (Nat × Nat)) (buf : List Nat),
      List.Pairwise
        (fun p q => p.1 ≠ q.1 ∧ p.1 ≠ q.2 ∧ p.2 ≠ q.1 ∧ p.2 ≠ q.2) L →
      (∀ p ∈ L, p.1 ≠ p.2) →
      (∀ p ∈ L, p.1 < buf.length ∧ p.2 < buf.length) →
      ∀ p ∈ L,
        List.getD (patchLoads typeLoad opcode buf L) p.1 0 = typeLoad ∧
        List.getD (patchLoads typeLoad opcode buf L) p.2 0
          = (List.getD buf p.2 0 &&& MASK_HI ||| opcode) := by
  intro L
  induction L with
  | nil =>
    intro buf _ _ _ p hp
    simp at hp
  | cons q rest ih =>
    intro buf hpw hne hbound p hp
    have hq12 : q.1 ≠ q.2 := hne q (List.mem_cons_self q rest)
    have hqb := hbound q (List.mem_cons_self q rest)
    have hrel := (List.pairwise_cons.mp hpw).1
    have hpw2 := (List.pairwise_cons.mp hpw).2
    rcases List.mem_cons.mp hp with hpq | hpr
    · subst hpq
      have hnotouch1 : ∀ r ∈ rest, r.1 ≠ p.1 ∧ r.2 ≠ p.1 := by
        intro r hr
        exact ⟨(hrel r hr).1.symm, (hrel r hr).2.1.symm⟩
      have hnotouch2 : ∀ r ∈ rest, r.1 ≠ p.2 ∧ r.2 ≠ p.2 := by
        intro r hr
        exact ⟨(hrel r hr).2.2.1.symm, (hrel r hr).2.2.2.symm⟩
      constructor
      · rw [patchLoads, patchLoads_getD_notmem typeLoad opcode rest _ p.1
            hnotouch1,
          getD_set_ne _ _ _ _ _ (Ne.symm hq12),
          getD_set_self _ _ _ _ hqb.1]
      · rw [patchLoads, patchLoads_getD_notmem typeLoad opcode rest _ p.2
            hnotouch2,
          getD_set_self _ _ _ _ (by simpa using hqb.2),
          getD_set_ne _ _ _ _ _ hq12]
    · have hbound2 : ∀ r ∈ rest, r.1 < (List.set (List.set buf q.1 typeLoad)
          q.2 (List.getD (List.set buf q.1 typeLoad) q.2 0 &&& MASK_HI |||
          opcode)).length ∧ r.2 < (List.set (List.set buf q.1 typeLoad) q.2
          (List.getD (List.set buf q.1 typeLoad) q.2 0 &&& MASK_HI |||
          opcode)).length := by
        intro r hr
        have := hbound r (List.mem_cons_of_mem q hr)
        simpa using this
      have hconc := ih _ hpw2
        (fun r hr => hne r (List.mem_cons_of_mem q hr)) hbound2 p hpr
      rw [patchLoads]
      refine ⟨hconc.1, ?_⟩
      rw [hconc.2,
        getD_set_ne _ _ _ _ _ (hrel p hpr).2.2.2,
        getD_set_ne _ _ _ _ _ (hrel p hpr).2.1]

/-- C7: for every attribute, `compile_program` chooses — from
`vertexElementFormat` — the unsigned-integer vector type ids and the
unsigned-to-float convert opcode when the format is 5, the signed-integer
vector type ids and the signed-to-float convert opcode when the format is 6
or 7, and the float vector type ids with the identity-copy opcode otherwise;
it overwrites the recorded type-declaration word with the chosen declared
type id, overwrites every recorded load site's type word, and rewrites each
load site's opcode word as `(old & 0xFFFF0000) | newOpcode`, so its low 16
bits become the new opcode and its high 16 bits are preserved.  (Offsets
are assumed in range and pairwise distinct, and opcode words are 32-bit, as
for well-formed translator output.) -/
theorem ir_patching (tbl : SpirvPatchTable) (buf : List Nat)
    (a : VertexAttribute)
    (hdecl : typeDeclOffsetOf tbl a < buf.length)
    (hbound : ∀ p ∈ loadOffsetsOf tbl a,
      p.1 < buf.length ∧ p.2 < buf.length)
    (hword : ∀ p ∈ loadOffsetsOf tbl a, List.getD buf p.2 0 < 4294967296)
    (hpw : List.Pairwise
      (fun p q => p.1 ≠ q.1 ∧ p.1 ≠ q.2 ∧ p.2 ≠ q.1 ∧ p.2 ≠ q.2)
      (loadOffsetsOf tbl a))
    (hne : ∀ p ∈ loadOffsetsOf tbl a, p.1 ≠ p.2)
    (hdne : ∀ p ∈ loadOffsetsOf tbl a,
      p.1 ≠ typeDeclOffsetOf tbl a ∧ p.2 ≠ typeDeclOffsetOf tbl a) :
    List.getD (patchAttribute tbl buf a) (typeDeclOffsetOf tbl a) 0
      = (if a.vertexElementFormat = 5 then tbl.tid_uvec4_p
         else if a.vertexElementFormat = 6 ∨ a.vertexElementFormat = 7
         then tbl.tid_ivec4_p else tbl.tid_vec4_p) ∧
    ∀ p ∈ loadOffsetsOf tbl a,
      List.getD (patchAttribute tbl buf a) p.1 0
        = (if a.vertexElementFormat = 5 then tbl.tid_uvec4
           else if a.vertexElementFormat = 6 ∨ a.vertexElementFormat = 7
           then tbl.tid_ivec4 else tbl.tid_vec4) ∧
      List.getD (patchAttribute tbl buf a) p.2 0 % 65536
        = (if a.vertexElementFormat = 5 then SpvOpConvertUToF
           else if a.vertexElementFormat = 6 ∨ a.vertexElementFormat = 7
           then SpvOpConvertSToF else SpvOpCopyObject) ∧
      List.getD (patchAttribute tbl buf a) p.2 0 / 65536
        = List.getD buf p.2 0 / 65536 := by
  have hsel : ∀ {α : Type} (x5 x67 xe : α),
      (if 5 ≤ a.vertexElementFormat ∧ a.vertexElementFormat ≤ 7 then
        (if a.vertexElementFormat = 5 then x5 else x67) else xe)
       = (if a.vertexElementFormat = 5 then x5
          else if a.vertexElementFormat = 6 ∨ a.vertexElementFormat = 7
          then x67 else xe) := by
    intro α x5 x67 xe
    split_ifs <;> first | rfl | omega
  have hopbound :
      (if 5 ≤ a.vertexElementFormat ∧ a.vertexElementFormat ≤ 7 then
        (if a.vertexElementFormat = 5 then SpvOpConvertUToF
         else SpvOpConvertSToF) else SpvOpCopyObject) < 65536 := by
    split_ifs <;> decide
  constructor
  · rw [patchAttribute, patchLoads_getD_notmem _ _ _ _ _
        (fun p hp => (hdne p hp)),
      getD_set_self _ _ _ _ hdecl, hsel]
  · intro p hp
    have hbound2 : ∀ q ∈ loadOffsetsOf tbl a,
        q.1 < (List.set buf (typeDeclOffsetOf tbl a)
          (if 5 ≤ a.vertexElementFormat ∧ a.vertexElementFormat ≤ 7 then
            (if a.vertexElementFormat = 5 then tbl.tid_uvec4_p
             else tbl.tid_ivec4_p) else tbl.tid_vec4_p)).length ∧
        q.2 < (List.set buf (typeDeclOffsetOf tbl a)
          (if 5 ≤ a.vertexElementFormat ∧ a.vertexElementFormat ≤ 7 then
            (if a.vertexElementFormat = 5 then tbl.tid_uvec4_p
             else tbl.tid_ivec4_p) else tbl.tid_vec4_p)).length := by
      intro q hq
      simpa using hbound q hq
    have hspec := patchLoads_spec
      (if 5 ≤ a.vertexElementFormat ∧ a.vertexElementFormat ≤ 7 then
        (if a.vertexElementFormat = 5 then tbl.tid_uvec4 else tbl.tid_ivec4)
       else tbl.tid_vec4)
      (if 5 ≤ a.vertexElementFormat ∧ a.vertexElementFormat ≤ 7 then
        (if a.vertexElementFormat = 5 then SpvOpConvertUToF
         else SpvOpConvertSToF) else SpvOpCopyObject)
      (loadOffsetsOf tbl a) _ hpw hne hbound2 p hp
    have hgd : List.getD (List.set buf (typeDeclOffsetOf tbl a)
        (if 5 ≤ a.vertexElementFormat ∧ a.vertexElementFormat ≤ 7 then
          (if a.vertexElementFormat = 5 then tbl.tid_uvec4_p
           else tbl.tid_ivec4_p) else tbl.tid_vec4_p)) p.2 0
        = List.getD buf p.2 0 :=
      getD_set_ne _ _ _ _ _ (Ne.symm (hdne p hp).2)
    rw [hgd] at hspec
    have hword2 := patch_opcode_word (List.getD buf p.2 0) _
      (hword p hp) hopbound
    refine ⟨?_, ?_, ?_⟩
    · rw [patchAttribute, hspec.1, hsel]
    · rw [patchAttribute, hspec.2, hword2, ← hsel]
      have hp16 : (2 : Nat) ^ 16 = 65536 := by norm_num
      omega
    · rw [patchAttribute, hspec.2, hword2]
      have hp16 : (2 : Nat) ^ 16 = 65536 := by norm_num
      omega

/-- Witness for `ir_patching`: a one-load-site table, an attribute with
element format 5 (BYTE4); the type-declaration word at offset 0 becomes the
unsigned-vector pointer type id. -/
theorem ir_patching_witness :
    List.getD (patchAttribute
      ⟨1, 2, 3, 4, 5, 6, [[0]], [[[(1, 2)]]]⟩
      [100, 200, 589831, 400] ⟨0, 0, 5⟩) 0 0 = 6 :=
  (ir_patching ⟨1, 2, 3, 4, 5, 6, [[0]], [[[(1, 2)]]]⟩
    [100, 200, 589831, 400] ⟨0, 0, 5⟩ (by decide) (by decide) (by decide)
    (by decide) (by decide) (by decide)).1

theorem match_shaders_refl (k : LinkedShaderData) :
    match_shaders k k = true := by
  simp [match_shaders]

theorem match_shaders_eq (a b : LinkedShaderData)
    (h : match_shaders a b = true) :
    vTagOf a = vTagOf b ∧ fTagOf a = fTagOf b ∧
    a.vertexAttributeCount = b.vertexAttributeCount ∧
    ∀ i ∈ List.range a.vertexAttributeCount,
      (attrAt a i).usage = (attrAt b i).usage ∧
      (attrAt a i).usageIndex = (attrAt b i).usageIndex ∧
      (attrAt a i).vertexElementFormat
        = (attrAt b i).vertexElementFormat := by
  simp only [match_shaders, Bool.and_eq_true, decide_eq_true_eq,
    List.all_eq_true] at h
  obtain ⟨⟨⟨h1, h2⟩, h3⟩, h4⟩ := h
  refine ⟨h1, h2, h3, fun i hi => ?_⟩
  have := h4 i hi
  simp only [Bool.and_eq_true, decide_eq_true_eq] at this
  exact ⟨this.1.1, this.1.2, this.2⟩

/-- C10: hash/equality consistency of the linker cache — for every two cache
keys whose vertex and fragment shader references are non-null, if
`match_shaders` judges them equal (same vertex tag, same fragment tag, same
attribute count, and every attribute's usage, usageIndex and
vertexElementFormat equal in order), then `hash_shaders` assigns them the
same 32-bit hash value, the consistency the hash-map collaborator requires
for lookups to hit. -/
theorem hash_match_consistent (a b : LinkedShaderData)
    (_hva : a.vertex ≠ none) (_hfa : a.fragment ≠ none)
    (_hvb : b.vertex ≠ none) (_hfb : b.fragment ≠ none)
    (hm : match_shaders a b = true) :
    hash_shaders a = hash_shaders b := by
  obtain ⟨h1, h2, h3, h4⟩ := match_shaders_eq a b hm
  rw [hash_shaders, hash_shaders, h1, h2, h3]
  congr 2
  apply List.foldl_ext
  intro acc i hi
  have hfields := h4 i (by rw [h3]; exact hi)
  rw [hfields.1, hfields.2.1, hfields.2.2]

/-- Witness for `hash_match_consistent`: two keys referencing distinct
shader records with equal tags and empty layouts. -/
theorem hash_match_consistent_witness :
    hash_shaders ⟨some ⟨1, 7, 1⟩, some ⟨2, 9, 1⟩, [], 0⟩
      = hash_shaders ⟨some ⟨3, 7, 5⟩, some ⟨4, 9, 2⟩, [], 0⟩ :=
  hash_match_consistent ⟨some ⟨1, 7, 1⟩, some ⟨2, 9, 1⟩, [], 0⟩
    ⟨some ⟨3, 7, 5⟩, some ⟨4, 9, 2⟩, [], 0⟩
    (by decide) (by decide) (by decide) (by decide) (by decide)

theorem linkMiss_ok_inv (s1 : SdlContext)
    (c : List (LinkedShaderData × SdlProgram)) (key : LinkedShaderData)
    (vsh psh : ShaderData) (env : LinkEnv) (P : SdlProgram)
    (h : (linkMiss s1 c key vsh psh env).result = LinkOutcome.ok P) :
    (linkMiss s1 c key vsh psh env).state
      = { s1 with
          linkerCache := some ((key, P) :: c)
          boundProgram := some P } := by
  unfold linkMiss at h ⊢
  rcases hcc : (if 0 < List.length s1.blob
      then compile_blob_program s1.blob env else compile_program env) with
    ⟨progOpt, tr⟩
  rw [hcc] at h
  cases progOpt with
  | none => simp at h
  | some prog0 =>
    by_cases hk : env.keyAllocOk = false
    · simp [hk] at h
    · by_cases hins : env.insertOk = false
      · simp [hk, hins] at h
      · simp [hk, hins] at h
        subst h
        simp [hk, hins]

theorem link_ok_inv (s : SdlContext) (attrs : List VertexAttribute)
    (env : LinkEnv) (P : SdlProgram)
    (h : (MOJOSHADER_sdlLinkProgram s attrs env).result = LinkOutcome.ok P) :
    ∃ vsh psh c2,
      s.boundVShader = some vsh ∧ s.boundPShader = some psh ∧
      (MOJOSHADER_sdlLinkProgram s attrs env).state.boundVShader = some vsh ∧
      (MOJOSHADER_sdlLinkProgram s attrs env).state.boundPShader = some psh ∧
      (MOJOSHADER_sdlLinkProgram s attrs env).state.linkerCache = some c2 ∧
      cacheFind c2 (mkKey vsh psh attrs) = some P ∧
      (MOJOSHADER_sdlLinkProgram s attrs env).state.boundProgram = some P := by
  cases hv : s.boundVShader with
  | none => simp [MOJOSHADER_sdlLinkProgram, hv] at h
  | some vsh =>
  cases hp : s.boundPShader with
  | none => simp [MOJOSHADER_sdlLinkProgram, hv, hp] at h
  | some psh =>
  cases hc : ensureCache s env with
  | none => simp [MOJOSHADER_sdlLinkProgram, hv, hp, hc] at h
  | some c =>
  cases hf : cacheFind c (mkKey vsh psh attrs) with
  | some p =>
    have hPp : p = P := by
      simp only [MOJOSHADER_sdlLinkProgram, hv, hp, hc, hf,
        LinkOutcome.ok.injEq] at h
      exact h
    subst hPp
    refine ⟨vsh, psh, c, rfl, rfl, ?_, ?_, ?_, hf, ?_⟩ <;>
      simp [MOJOSHADER_sdlLinkProgram, hv, hp, hc, hf]
  | none =>
    have hmiss : MOJOSHADER_sdlLinkProgram s attrs env
        = linkMiss { s with linkerCache := some c } c
            (mkKey vsh psh attrs) vsh psh env := by
      simp [MOJOSHADER_sdlLinkProgram, hv, hp, hc, hf]
    rw [hmiss] at h
    have hstate := linkMiss_ok_inv _ c (mkKey vsh psh attrs) vsh psh env P h
    refine ⟨vsh, psh, (mkKey vsh psh attrs, P) :: c, rfl, rfl, ?_, ?_, ?_, ?_, ?_⟩
    · rw [hmiss, hstate]
      simp [hv]
    · rw [hmiss, hstate]
      simp [hp]
    · rw [hmiss, hstate]
    · simp [cacheFind, match_shaders_refl]
    · rw [hmiss, hstate]

/-- C2: cache-hit idempotence — if a link call on a context with both
shaders bound returns a program `P`, a second link call with the same bound
shaders and the identical attribute layout returns the identical cached
program `P`, performs no host-API calls at all (its trace is empty, so in
particular no new shader-object creation and no repatching), and makes `P`
the currently bound program. -/
theorem link_cache_hit_idempotent (s : SdlContext)
    (attrs : List VertexAttribute) (env1 env2 : LinkEnv) (P : SdlProgram)
    (h1 : (MOJOSHADER_sdlLinkProgram s attrs env1).result
      = LinkOutcome.ok P) :
    (MOJOSHADER_sdlLinkProgram (MOJOSHADER_sdlLinkProgram s attrs env1).state
        attrs env2).result = LinkOutcome.ok P ∧
    (MOJOSHADER_sdlLinkProgram (MOJOSHADER_sdlLinkProgram s attrs env1).state
        attrs env2).trace = [] ∧
    (MOJOSHADER_sdlLinkProgram (MOJOSHADER_sdlLinkProgram s attrs env1).state
        attrs env2).state.boundProgram = some P := by
  obtain ⟨vsh, psh, c2, hv, hp, hv1, hp1, hc1, hfind, hbp⟩ :=
    link_ok_inv s attrs env1 P h1
  set S := (MOJOSHADER_sdlLinkProgram s attrs env1).state with hSdef
  have hens : ensureCache S env2 = some c2 := by
    simp [ensureCache, hc1]
  refine ⟨?_, ?_, ?_⟩ <;>
    simp [MOJOSHADER_sdlLinkProgram, hv1, hp1, hens, hfind]

/-- Witness for `link_cache_hit_idempotent`: a fresh context, an empty
layout; the first link compiles and caches a program, the second returns
it. -/
theorem link_cache_hit_idempotent_witness :
    (MOJOSHADER_sdlLinkProgram
      (MOJOSHADER_sdlLinkProgram
        ⟨some ⟨1, 1, 1⟩, some ⟨2, 2, 1⟩, none, none, []⟩ []
        ⟨true, true, true, true, some 10, some 11, 100⟩).state
      [] ⟨true, true, true, true, some 20, some 21, 200⟩).result
    = LinkOutcome.ok
        ⟨100, some 10, some 11, some ⟨1, 1, 1⟩, some ⟨2, 2, 1⟩⟩ :=
  (link_cache_hit_idempotent
    ⟨some ⟨1, 1, 1⟩, some ⟨2, 2, 1⟩, none, none, []⟩ []
    ⟨true, true, true, true, some 10, some 11, 100⟩
    ⟨true, true, true, true, some 20, some 21, 200⟩
    ⟨100, some 10, some 11, some ⟨1, 1, 1⟩, some ⟨2, 2, 1⟩⟩
    (by decide)).1

/-- C8: mandatory-pair precondition — when either bound shader slot is
empty, `MOJOSHADER_sdlLinkProgram` returns the error result immediately
with the context unchanged (so the linker cache is neither created nor
read nor written) and an empty effect trace (no allocation, no host
calls). -/
theorem link_mandatory_pair (s : SdlContext) (attrs : List VertexAttribute)
    (env : LinkEnv) (h : s.boundVShader = none ∨ s.boundPShader = none) :
    MOJOSHADER_sdlLinkProgram s attrs env = ⟨s, LinkOutcome.fail, []⟩ := by
  rcases h with h | h
  · cases hp : s.boundPShader <;> simp [MOJOSHADER_sdlLinkProgram, h, hp]
  · cases hv : s.boundVShader <;> simp [MOJOSHADER_sdlLinkProgram, h, hv]

/-- Witness for `link_mandatory_pair`: a context with no vertex shader
bound. -/
theorem link_mandatory_pair_witness :
    MOJOSHADER_sdlLinkProgram
      ⟨none, some ⟨2, 2, 1⟩, none, none, []⟩ []
      ⟨true, true, true, true, some 10, some 11, 100⟩
    = ⟨⟨none, some ⟨2, 2, 1⟩, none, none, []⟩, LinkOutcome.fail, []⟩ :=
  link_mandatory_pair ⟨none, some ⟨2, 2, 1⟩, none, none, []⟩ []
    ⟨true, true, true, true, some 10, some 11, 100⟩ (Or.inl rfl)

/-- C3: all-or-nothing program creation — on a cache miss where the
vertex-stage creation call succeeds and the fragment-stage call fails, the
already-created vertex handle is released, the link returns the error
result, the cache keeps exactly its previous entries (nothing is added),
and the bound program is unchanged — no program with only one handle is
returned or cached. -/
theorem link_all_or_nothing (s : SdlContext) (attrs : List VertexAttribute)
    (env : LinkEnv) (vsh psh : ShaderData)
    (c : List (LinkedShaderData × SdlProgram)) (vh : Nat)
    (hv : s.boundVShader = some vsh) (hp : s.boundPShader = some psh)
    (hc : ensureCache s env = some c)
    (hmiss : cacheFind c (mkKey vsh psh attrs) = none)
    (halloc : env.programAllocOk = true)
    (hvc : env.vertexCreate = some vh)
    (hfc : env.fragmentCreate = none)
    (hfetch : List.length s.blob = 0 ∨ (fetch_blob_shader s.blob 0).isSome) :
    (MOJOSHADER_sdlLinkProgram s attrs env).result = LinkOutcome.fail ∧
    (MOJOSHADER_sdlLinkProgram s attrs env).state.linkerCache = some c ∧
    HostEvent.releaseShader vh
      ∈ (MOJOSHADER_sdlLinkProgram s attrs env).trace ∧
    (MOJOSHADER_sdlLinkProgram s attrs env).state.boundProgram
      = s.boundProgram := by
  have hmain : MOJOSHADER_sdlLinkProgram s attrs env
      = linkMiss { s with linkerCache := some c } c
          (mkKey vsh psh attrs) vsh psh env := by
    simp [MOJOSHADER_sdlLinkProgram, hv, hp, hc, hmiss]
  rcases hfetch with hlen | hsome
  · have hcomp : (if 0 < List.length
        ({ s with linkerCache := some c } : SdlContext).blob
        then compile_blob_program
          ({ s with linkerCache := some c } : SdlContext).blob env
        else compile_program env)
        = (none, [HostEvent.createShader 0 vh, HostEvent.createShaderFail 1,
            HostEvent.releaseShader vh,
            HostEvent.freeProgramRec env.newProgId]) := by
      simp [hlen, compile_program, halloc, hvc, hfc]
    rw [hmain]
    unfold linkMiss
    rw [hcomp]
    simp
  · have hcomp : (if 0 < List.length
        ({ s with linkerCache := some c } : SdlContext).blob
        then compile_blob_program
          ({ s with linkerCache := some c } : SdlContext).blob env
        else compile_program env)
        = (none, [HostEvent.createShader 0 vh, HostEvent.createShaderFail 1,
            HostEvent.releaseShader vh,
            HostEvent.freeProgramRec env.newProgId]) := by
      by_cases hblen : 0 < List.length s.blob
      · have hnotnone : (fetch_blob_shader s.blob 0).isNone = false := by
          cases hfb : fetch_blob_shader s.blob 0
          · rw [hfb] at hsome
            simp at hsome
          · simp
        simp [hblen, compile_blob_program, halloc, hvc, hfc, hnotnone]
      · simp [hblen, compile_program, halloc, hvc, hfc]
    rw [hmain]
    unfold linkMiss
    rw [hcomp]
    simp

/-- Witness for `link_all_or_nothing`: fresh context, vertex creation
yields handle 10, fragment creation fails. -/
theorem link_all_or_nothing_witness :
    (MOJOSHADER_sdlLinkProgram
      ⟨some ⟨1, 1, 1⟩, some ⟨2, 2, 1⟩, none, none, []⟩ []
      ⟨true, true, true, true, some 10, none, 100⟩).result
    = LinkOutcome.fail :=
  (link_all_or_nothing ⟨some ⟨1, 1, 1⟩, some ⟨2, 2, 1⟩, none, none, []⟩ []
    ⟨true, true, true, true, some 10, none, 100⟩ ⟨1, 1, 1⟩ ⟨2, 2, 1⟩ [] 10
    (by decide) (by decide) (by decide) (by decide) (by decide) (by decide)
    (by decide) (Or.inl (by decide))).1

/-- C5 (refuting theorem for the code bug): a link attempt on which both
creation calls succeed but the cache-key allocation fails does not return
the error result with the program torn down and nothing cached — instead
the code frees the freshly built program and then, lacking a `return`,
falls through to `memcpy` into the null key pointer: the outcome is the
modelled null dereference, after both handles of the just-built program
were already released. -/
theorem link_key_alloc_failure_bug :
    (MOJOSHADER_sdlLinkProgram
        ⟨some ⟨1, 1, 1⟩, some ⟨2, 2, 1⟩, none, none, []⟩ []
        ⟨true, true, false, true, some 10, some 11, 100⟩).result
      = LinkOutcome.nullDeref ∧
    HostEvent.releaseShader 10 ∈ (MOJOSHADER_sdlLinkProgram
        ⟨some ⟨1, 1, 1⟩, some ⟨2, 2, 1⟩, none, none, []⟩ []
        ⟨true, true, false, true, some 10, some 11, 100⟩).trace ∧
    HostEvent.releaseShader 11 ∈ (MOJOSHADER_sdlLinkProgram
        ⟨some ⟨1, 1, 1⟩, some ⟨2, 2, 1⟩, none, none, []⟩ []
        ⟨true, true, false, true, some 10, some 11, 100⟩).trace := by
  refine ⟨?_, ?_, ?_⟩ <;> decide

theorem hash_remove_spec (e : LinkedShaderData × SdlProgram)
    (rest : List (LinkedShaderData × SdlProgram)) :
    ∀ done, (∀ a ∈ done, match_shaders a.1 e.1 = false) →
      hash_remove (done ++ e :: rest) e.1 = some (e, done ++ rest) := by
  intro done
  induction done with
  | nil =>
    intro _
    simp [hash_remove, match_shaders_refl]
  | cons a done2 ih =>
    intro hnm
    have ha := hnm a (List.mem_cons_self a done2)
    rw [List.cons_append, hash_remove]
    simp [ha, ih (fun b hb => hnm b (List.mem_cons_of_mem a hb))]

/-- The `hash_iter_keys` eviction loop of `MOJOSHADER_sdlDeleteShader`,
characterized: provided the cache's keys are pairwise distinct under
`match_shaders` (true of every cache the linker builds, since it never
inserts a key that an existing entry matches), the loop removes exactly the
entries whose key references the dying shader, and its trace is the
concatenation, in entry order, of each removed entry's key-free and
program-delete events. -/
theorem evictLoop_spec (sh : ShaderData) :
    ∀ (visit done : List (LinkedShaderData × SdlProgram)) (s : SdlContext),
      s.linkerCache = some (done ++ visit) →
      List.Pairwise (fun a b => match_shaders a.1 b.1 = false)
        (done ++ visit) →
      (evictLoop sh visit s).1.linkerCache
        = some (done ++ visit.filter (fun e => !refsShader sh e.1)) ∧
      (evictLoop sh visit s).2
        = visit.flatMap (fun e => if refsShader sh e.1
            then HostEvent.freeKeyRec :: deleteProgramTrace e.2 else []) := by
  intro visit
  induction visit with
  | nil =>
    intro done s hcache hpw
    simp [evictLoop, hcache]
  | cons e rest ih =>
    intro done s hcache hpw
    by_cases href : refsShader sh e.1
    · have hnm : ∀ a ∈ done, match_shaders a.1 e.1 = false := by
        intro a ha
        exact (List.pairwise_append.mp hpw).2.2 a ha e
          (List.mem_cons_self e rest)
      have hrm : hash_remove ((s.linkerCache).getD []) e.1
          = some (e, done ++ rest) := by
        rw [hcache]
        exact hash_remove_spec e rest done hnm
      have hpw2 : List.Pairwise (fun a b => match_shaders a.1 b.1 = false)
          (done ++ rest) := by
        apply List.Pairwise.sublist _ hpw
        exact List.Sublist.append_left (List.sublist_cons_self e rest) done
      have hnukecache :
          (nuke_shaders { s with linkerCache := some (done ++ rest) } e).1.linkerCache
            = some (done ++ rest) := by
        simp [nuke_shaders, MOJOSHADER_sdlDeleteProgram]
      have hrec := ih done
        (nuke_shaders { s with linkerCache := some (done ++ rest) } e).1
        hnukecache hpw2
      rw [evictLoop, hrm]
      simp only [href, if_true]
      refine ⟨?_, ?_⟩
      · rw [hrec.1]
        simp [href]
      · rw [hrec.2]
        simp [href, nuke_shaders, MOJOSHADER_sdlDeleteProgram]
    · rw [Bool.not_eq_true] at href
      have hpw2 : List.Pairwise (fun a b => match_shaders a.1 b.1 = false)
          ((done ++ [e]) ++ rest) := by
        have hre : (done ++ [e]) ++ rest = done ++ e :: rest := by simp
        rw [hre]
        exact hpw
      have hcache2 : s.linkerCache = some ((done ++ [e]) ++ rest) := by
        rw [hcache]
        simp
      have hrec := ih (done ++ [e]) s hcache2 hpw2
      have hstep : evictLoop sh (e :: rest) s = evictLoop sh rest s := by
        rw [evictLoop]
        simp [href]
      refine ⟨?_, ?_⟩
      · rw [hstep, hrec.1]
        simp [href]
      · rw [hstep, hrec.2]
        simp [href]

/-- C4: eviction coupling — deleting a shader whose reference count is 1
(dropping to zero) removes from the cache every entry whose key references
that shader as either stage, deleting the corresponding program and
releasing its handles, and all those events precede the freeing of the
shader's parse data and record; entries referencing other shaders remain.
(The cache's keys are assumed pairwise distinct under `match_shaders`, the
invariant the linker maintains.) -/
theorem delete_shader_evicts (s : SdlContext) (sh : ShaderData)
    (cache : List (LinkedShaderData × SdlProgram))
    (href : sh.refcount = 1)
    (hcache : s.linkerCache = some cache)
    (hpw : List.Pairwise (fun a b => match_shaders a.1 b.1 = false) cache) :
    (MOJOSHADER_sdlDeleteShader s sh).1.linkerCache
      = some (cache.filter (fun e => !refsShader sh e.1)) ∧
    ∃ tr, (MOJOSHADER_sdlDeleteShader s sh).2
        = tr ++ [HostEvent.freeParseData sh.id,
            HostEvent.freeShaderRec sh.id] ∧
      ∀ e ∈ cache, refsShader sh e.1 = true →
        (∀ h2, e.2.vertexShader = some h2 →
          HostEvent.releaseShader h2 ∈ tr) ∧
        (∀ h2, e.2.pixelShader = some h2 →
          HostEvent.releaseShader h2 ∈ tr) := by
  have hrc : ¬ 1 < sh.refcount := by omega
  have hspec := evictLoop_spec sh cache [] s (by simpa using hcache)
    (by simpa using hpw)
  have hdel : MOJOSHADER_sdlDeleteShader s sh
      = ((evictLoop sh cache s).1,
         (evictLoop sh cache s).2 ++
           [HostEvent.freeParseData sh.id, HostEvent.freeShaderRec sh.id]) := by
    rw [MOJOSHADER_sdlDeleteShader]
    rw [if_neg hrc, hcache]
  refine ⟨?_, ?_⟩
  · rw [hdel]
    simpa using hspec.1
  · refine ⟨(evictLoop sh cache s).2, by rw [hdel], ?_⟩
    intro e he hrefe
    constructor
    · intro h2 hh2
      rw [hspec.2]
      rw [List.mem_flatMap]
      refine ⟨e, he, ?_⟩
      simp [hrefe, deleteProgramTrace, hh2]
    · intro h2 hh2
      rw [hspec.2]
      rw [List.mem_flatMap]
      refine ⟨e, he, ?_⟩
      simp [hrefe, deleteProgramTrace, hh2]

/-- Witness for `delete_shader_evicts`: a cache with one entry referencing
the dying shader (tag 1) and one entry that does not; deletion leaves
exactly the latter. -/
theorem delete_shader_evicts_witness :
    (MOJOSHADER_sdlDeleteShader
      ⟨none, none, none,
        some [(⟨some ⟨1, 1, 1⟩, some ⟨2, 2, 1⟩, [], 0⟩,
                ⟨50, some 10, some 11, some ⟨1, 1, 1⟩, some ⟨2, 2, 1⟩⟩),
              (⟨some ⟨2, 2, 1⟩, some ⟨2, 2, 1⟩, [], 0⟩,
                ⟨51, some 12, some 13, some ⟨2, 2, 1⟩, some ⟨2, 2, 1⟩⟩)],
        []⟩
      ⟨1, 1, 1⟩).1.linkerCache
    = some ([(⟨some ⟨1, 1, 1⟩, some ⟨2, 2, 1⟩, [], 0⟩,
              ⟨50, some 10, some 11, some ⟨1, 1, 1⟩, some ⟨2, 2, 1⟩⟩),
             (⟨some ⟨2, 2, 1⟩, some ⟨2, 2, 1⟩, [], 0⟩,
              ⟨51, some 12, some 13, some ⟨2, 2, 1⟩, some ⟨2, 2, 1⟩⟩)].filter
        (fun e => !refsShader ⟨1, 1, 1⟩ e.1)) :=
  (delete_shader_evicts
    ⟨none, none, none,
      some [(⟨some ⟨1, 1, 1⟩, some ⟨2, 2, 1⟩, [], 0⟩,
              ⟨50, some 10, some 11, some ⟨1, 1, 1⟩, some ⟨2, 2, 1⟩⟩),
            (⟨some ⟨2, 2, 1⟩, some ⟨2, 2, 1⟩, [], 0⟩,
              ⟨51, some 12, some 13, some ⟨2, 2, 1⟩, some ⟨2, 2, 1⟩⟩)],
      []⟩
    ⟨1, 1, 1⟩
    [(⟨some ⟨1, 1, 1⟩, some ⟨2, 2, 1⟩, [], 0⟩,
       ⟨50, some 10, some 11, some ⟨1, 1, 1⟩, some ⟨2, 2, 1⟩⟩),
     (⟨some ⟨2, 2, 1⟩, some ⟨2, 2, 1⟩, [], 0⟩,
       ⟨51, some 12, some 13, some ⟨2, 2, 1⟩, some ⟨2, 2, 1⟩⟩)]
    (by decide) (by decide) (by decide)).1

end MojoShader
